import Mathlib

/-!
Shallow embedding of the `nype` string-newtype library (`src/string.rs`).

Rust `&str` / `Box<str>` values are modelled as fat pointers: an address
(`Nat`) together with the byte content (`List UInt8`).  Validation only ever
reads the bytes; the representation casts (`transpose`) also involve the
address, which models "same allocation / no copy".
-/

namespace Nype

/-- The byte content of a Rust string slice (`str` is a sequence of bytes). -/
abbrev Str := List UInt8

/-- Model of `u8::is_ascii_whitespace`: space, tab, LF, FF, CR. -/
def isAsciiWhitespace (b : UInt8) : Bool :=
  b == 0x20 || b == 0x09 || b == 0x0A || b == 0x0C || b == 0x0D

/-- Model of `str::trim_ascii_start`: drop leading ASCII whitespace bytes. -/
def trim_ascii_start (s : Str) : Str := s.dropWhile isAsciiWhitespace

/-- Model of `str::trim_ascii_end`: drop trailing ASCII whitespace bytes. -/
def trim_ascii_end (s : Str) : Str := (s.reverse.dropWhile isAsciiWhitespace).reverse

/-- Model of `str::trim_ascii`: trim both ends. -/
def trim_ascii (s : Str) : Str := trim_ascii_end (trim_ascii_start s)

/-- The check kinds of the catalog (`define_string_type!(@check ...)` rules).
A compiled regex is modelled abstractly by its matching predicate, since the
pattern engine is an external crate. -/
inductive Check where
  | non_empty : Check
  | ascii_trimmed : Check
  | min_len (l : Nat) : Check
  | max_len (l : Nat) : Check
  | len (l : Nat) : Check
  | regex (is_match : Str → Bool) : Check

/-- Whether a single check passes on an input slice.  Each case is the
negation of the early-return failure condition in the corresponding
`@check` macro rule. -/
def checkPasses (c : Check) (s : Str) : Bool :=
  match c with
  | .non_empty => !s.isEmpty
  | .ascii_trimmed => (trim_ascii s).length == s.length
  | .min_len l => !(s.length < l)
  | .max_len l => !(l < s.length)
  | .len l => s.length == l
  | .regex is_match => is_match s

/-- The expansion of the `@check` rules inside `new_ref`: run the checks in
declaration order, returning at the first failure the tag (variant index) of
the failing check; `tag` is the index of the first check of the list in the
whole declaration. -/
def checksRun (tag : Nat) (checks : List Check) (s : Str) : Except Nat Unit :=
  match checks with
  | [] => .ok ()
  | c :: rest =>
    if checkPasses c s then checksRun (tag + 1) rest s else .error tag

/-- Model of `&'s str`: address of the pointed-to bytes plus the bytes. -/
structure StrRef where
  addr : Nat
  bytes : Str
deriving DecidableEq

/-- Model of `Box<str>`: the owned allocation's address plus the bytes. -/
structure BoxStr where
  addr : Nat
  bytes : Str
deriving DecidableEq

/-- Model of an owned `String` (the default `$inner_ty`): heap buffer
address plus the bytes. -/
structure OwnedString where
  addr : Nat
  bytes : Str
deriving DecidableEq

/-- The generated wrapper `$struct_name<TyInner>(TyInner)`: a single-field
`repr(transparent)` tuple struct, generic over the inner storage. -/
structure Wrapper (α : Type) where
  inner : α
deriving DecidableEq

/-- Model of `&'s $struct_name<str>`: a reference to a wrapper around
unsized `str`; same fat-pointer shape, wrapper-typed. -/
structure WrapperStrRef where
  addr : Nat
  bytes : Str
deriving DecidableEq

/-- Model of `Box<$struct_name<str>>`: an owned allocation holding a
wrapper around unsized `str`. -/
structure WrapperStrBox where
  addr : Nat
  bytes : Str
deriving DecidableEq

/-- Model of `*const str` / `*mut str`: a raw fat pointer (address and, for
our purposes, the pointed-to bytes, whose length is the pointer metadata). -/
structure StrPtr where
  addr : Nat
  bytes : Str

/-- Model of `*const $struct_name<str>` / `*mut $struct_name<str>`. -/
structure WrapperStrPtr where
  addr : Nat
  bytes : Str

/-- `Deref<Target = str>` for the inner storage kinds: produce the `&str`
fat pointer. -/
class DerefStr (α : Type) where
  deref : α → StrRef

instance : DerefStr StrRef := ⟨fun s => s⟩
instance : DerefStr BoxStr := ⟨fun b => ⟨b.addr, b.bytes⟩⟩
instance : DerefStr OwnedString := ⟨fun s => ⟨s.addr, s.bytes⟩⟩

/-- `into_inner`: extract the inner value out of the wrapper. -/
def into_inner (w : Wrapper α) : α := w.inner

/-- `into_inner_str`: const specialization of `into_inner` for `&str`. -/
def into_inner_str (w : Wrapper StrRef) : StrRef := w.inner

/-- `as_str`: `self.0.as_ref()`, a `&str` view of the inner value. -/
def as_str [DerefStr α] (w : Wrapper α) : StrRef := DerefStr.deref w.inner

/-- `core::ptr::from_ref`: a `&str` to a raw `*const str`, same address,
same metadata. -/
def ptr_from_ref (s : StrRef) : StrPtr := ⟨s.addr, s.bytes⟩

/-- The `as`-cast `*const str as *const $struct_name<str>` (repr-transparent
fat-pointer cast): address and metadata unchanged. -/
def cast_str_ptr (p : StrPtr) : WrapperStrPtr := ⟨p.addr, p.bytes⟩

/-- Dereferencing the wrapper-typed raw pointer (`&*wrapped_ptr`). -/
def deref_wrapper_ptr (p : WrapperStrPtr) : WrapperStrRef := ⟨p.addr, p.bytes⟩

/-- `transpose` for `$struct_name<&'s str>`: convert a "wrapped (str ref)"
to a "(wrapped str) ref" by the raw-pointer cast sequence of the source. -/
def transpose (w : Wrapper StrRef) : WrapperStrRef :=
  deref_wrapper_ptr (cast_str_ptr (ptr_from_ref (into_inner_str w)))

/-- `Box::into_raw`: take the allocation out of the box as a raw pointer. -/
def box_into_raw (b : BoxStr) : StrPtr := ⟨b.addr, b.bytes⟩

/-- `Box::from_raw` at wrapper type: rebuild a box from the raw pointer,
same allocation. -/
def box_from_raw (p : WrapperStrPtr) : WrapperStrBox := ⟨p.addr, p.bytes⟩

/-- `transpose` for `$struct_name<Box<str>>`: convert a "wrapped (str box)"
to a "(wrapped str) box". -/
def transpose_box (w : Wrapper BoxStr) : WrapperStrBox :=
  box_from_raw (cast_str_ptr (box_into_raw (into_inner w)))

/-- `as_str` on `$struct_name<str>` seen through a reference: the inner
`str` bytes at the same address (repr-transparent, `self.0.as_ref()`). -/
def wrapper_str_as_str (r : WrapperStrRef) : StrRef := ⟨r.addr, r.bytes⟩

/-- The reverse cast for the reference form, as available in the generated
code: take the `&str` out of the `&$struct_name<str>` (via `as_str` /
`as_inner`) and wrap it (`$struct_name(...)`). -/
def untranspose (r : WrapperStrRef) : Wrapper StrRef := ⟨wrapper_str_as_str r⟩

/-- Modelled from the spec: the box-of-wrapper → wrapper-around-box reverse
direction (§4.5 "reverse direction ... box-of-wrapper → wrapper-around-box").
The source defines only the forward `transpose` for `Box<str>`; the reverse
is the same raw-pointer sequence in the other direction, preserving the
allocation. -/
def untranspose_box (b : WrapperStrBox) : Wrapper BoxStr := ⟨⟨b.addr, b.bytes⟩⟩

/-- `new_ref` (const-checked rule): run the checks in order on the input
slice, and on success hand out `Self(input).transpose()`. The error type is
the generated enum, modelled by the variant index. -/
def new_ref (checks : List Check) (input : StrRef) : Except Nat WrapperStrRef :=
  match checksRun 0 checks input.bytes with
  | .error e => .error e
  | .ok _ => .ok (transpose ⟨input⟩)

/-- `new` (const-checked rule): validate through `new_ref(&*input)` and on
success keep the original inner value. -/
def new [DerefStr α] (checks : List Check) (input : α) : Except Nat (Wrapper α) :=
  match new_ref checks (DerefStr.deref input) with
  | .ok _ => .ok ⟨input⟩
  | .error e => .error e

/-- `new_box` (const-checked rule): validate through `new_ref(&*input)` and
on success hand out `Self(input).transpose()`. -/
def new_box (checks : List Check) (input : BoxStr) : Except Nat WrapperStrBox :=
  match new_ref checks (DerefStr.deref input) with
  | .ok _ => .ok (transpose_box ⟨input⟩)
  | .error e => .error e

/-- `<String as From<&str>>::from`: copy the bytes into a fresh owned
buffer; the fresh allocation's address is a parameter of the model. -/
def string_from (freshAddr : Nat) (s : StrRef) : OwnedString := ⟨freshAddr, s.bytes⟩

/-- `FromStr::from_str` (const-checked rule): `Self::new(String::from(s))`. -/
def from_str (checks : List Check) (freshAddr : Nat) (s : StrRef) :
    Except Nat (Wrapper OwnedString) :=
  new checks (string_from freshAddr s)

/-- Ownership-aware wrapper of `new` for owned input: `live` is the list of
heap allocations the caller can still reach through values it holds.  `new`
takes `input` by value; on `Ok(Self(input))` the allocation moves into the
returned wrapper, while on the `Err(e) => Err(e)` path no returned value
contains `input`, so `input` is dropped when `new`'s scope ends and its
allocation is freed. -/
def new_with_heap (checks : List Check) (live : List Nat) (input : OwnedString) :
    List Nat × Except Nat (Wrapper OwnedString) :=
  match new checks input with
  | .ok w => (live, .ok w)
  | .error e => (live.erase input.addr, .error e)

/-- Ownership-aware wrapper of `new_box`: same move semantics as `new` —
the `Box<str>` input is consumed, and freed on the error path. -/
def new_box_with_heap (checks : List Check) (live : List Nat) (input : BoxStr) :
    List Nat × Except Nat WrapperStrBox :=
  match new_box checks input with
  | .ok w => (live, .ok w)
  | .error e => (live.erase input.addr, .error e)

/-- Ownership-aware wrapper of `new_ref`: the input is a shared borrow
(`&'s str`), so no allocation moves or is freed on either path. -/
def new_ref_with_heap (checks : List Check) (live : List Nat) (input : StrRef) :
    List Nat × Except Nat WrapperStrRef :=
  (live, new_ref checks input)

namespace Unchecked

/-- `new` (no-checks rule): `Self(inner)`, infallible. -/
def new [DerefStr α] (inner : α) : Wrapper α := ⟨inner⟩

/-- `FromStr::from_str` (no-checks rule): `Ok(Self::new(String::from(s)))`
with `Err = Infallible` (modelled by `Empty`). -/
def from_str (freshAddr : Nat) (s : StrRef) : Except Empty (Wrapper OwnedString) :=
  .ok (new (string_from freshAddr s))

end Unchecked

/-- All checks of a specification pass on the given bytes. -/
def allPass (checks : List Check) (s : Str) : Prop :=
  ∀ c ∈ checks, checkPasses c s = true

instance (checks : List Check) (s : Str) : Decidable (allPass checks s) :=
  inferInstanceAs (Decidable (∀ c ∈ checks, checkPasses c s = true))

/-- `i` is the index of the first check (in declaration order) failing on
`s`: the `i`-th check fails and every earlier one passes. -/
def isFirstFail (checks : List Check) (s : Str) (i : Nat) : Prop :=
  ∃ c, checks[i]? = some c ∧ checkPasses c s = false ∧
    ∀ j c', j < i → checks[j]? = some c' → checkPasses c' s = true

theorem isFirstFail_cons_zero (c : Check) (cs : List Check) (s : Str) :
    isFirstFail (c :: cs) s 0 ↔ checkPasses c s = false := by
  constructor
  · rintro ⟨c', hget, hfail, _⟩
    simp only [List.getElem?_cons_zero, Option.some.injEq] at hget
    exact hget ▸ hfail
  · intro hc
    exact ⟨c, by simp, hc, fun j c' hj _ => absurd hj (Nat.not_lt_zero j)⟩

theorem isFirstFail_cons_succ (c : Check) (cs : List Check) (s : Str) (k : Nat) :
    isFirstFail (c :: cs) s (k + 1) ↔ checkPasses c s = true ∧ isFirstFail cs s k := by
  constructor
  · rintro ⟨c', hget, hfail, hearlier⟩
    refine ⟨hearlier 0 c (Nat.succ_pos k) (by simp), c', ?_, hfail, ?_⟩
    · simpa using hget
    · intro j c'' hj hget'
      exact hearlier (j + 1) c'' (Nat.succ_lt_succ hj) (by simpa using hget')
  · rintro ⟨hc, c', hget, hfail, hearlier⟩
    refine ⟨c', by simpa using hget, hfail, ?_⟩
    intro j c'' hj hget'
    cases j with
    | zero =>
      simp only [List.getElem?_cons_zero, Option.some.injEq] at hget'
      exact hget' ▸ hc
    | succ j =>
      exact hearlier j c'' (Nat.lt_of_succ_lt_succ hj) (by simpa using hget')

theorem checksRun_ok_iff (t : Nat) (checks : List Check) (s : Str) :
    checksRun t checks s = .ok () ↔ allPass checks s := by
  induction checks generalizing t with
  | nil => simp [checksRun, allPass]
  | cons c rest ih =>
    by_cases hc : checkPasses c s
    · rw [show checksRun t (c :: rest) s = checksRun (t + 1) rest s by simp [checksRun, hc]]
      rw [ih (t + 1)]
      simp [allPass, List.forall_mem_cons, hc]
    · rw [show checksRun t (c :: rest) s = .error t by simp [checksRun, hc]]
      simp [allPass, List.forall_mem_cons, hc]

theorem checksRun_error_iff (t : Nat) (checks : List Check) (s : Str) (e : Nat) :
    checksRun t checks s = .error e ↔ ∃ i, e = t + i ∧ isFirstFail checks s i := by
  induction checks generalizing t with
  | nil =>
    simp only [checksRun, isFirstFail]
    constructor
    · intro h
      exact absurd h (by simp)
    · rintro ⟨i, _, c, hget, _⟩
      simp at hget
  | cons c rest ih =>
    by_cases hc : checkPasses c s
    · rw [show checksRun t (c :: rest) s = checksRun (t + 1) rest s by simp [checksRun, hc]]
      rw [ih (t + 1)]
      constructor
      · rintro ⟨i, he, hff⟩
        exact ⟨i + 1, by omega, (isFirstFail_cons_succ c rest s i).mpr ⟨hc, hff⟩⟩
      · rintro ⟨i, he, hff⟩
        cases i with
        | zero =>
          exact absurd ((isFirstFail_cons_zero c rest s).mp hff) (by simp [hc])
        | succ k =>
          exact ⟨k, by omega, ((isFirstFail_cons_succ c rest s k).mp hff).2⟩
    · rw [show checksRun t (c :: rest) s = .error t by simp [checksRun, hc]]
      constructor
      · intro h
        have he : t = e := Except.error.inj h
        exact ⟨0, by omega, (isFirstFail_cons_zero c rest s).mpr (by simpa using hc)⟩
      · rintro ⟨i, he, hff⟩
        cases i with
        | zero =>
          simp [he]
        | succ k =>
          exact absurd ((isFirstFail_cons_succ c rest s k).mp hff).1 hc

theorem new_ref_error_iff (checks : List Check) (input : StrRef) (i : Nat) :
    new_ref checks input = .error i ↔ isFirstFail checks input.bytes i := by
  unfold new_ref
  cases h : checksRun 0 checks input.bytes with
  | error e =>
    simp only []
    rw [checksRun_error_iff] at h
    obtain ⟨k, hk, hff⟩ := h
    constructor
    · intro he
      have : e = i := Except.error.inj he
      subst this
      simpa [hk] using hff
    · intro hff'
      have : i = k := by
        obtain ⟨c, hget, hfail, hearl⟩ := hff'
        obtain ⟨c', hget', hfail', hearl'⟩ := hff
        rcases Nat.lt_trichotomy i k with h | h | h
        · exact absurd (hearl' i c h hget) (by simp [hfail])
        · exact h
        · exact absurd (hearl k c' h hget') (by simp [hfail'])
      simp [this, hk]
  | ok u =>
    simp only []
    rw [checksRun_ok_iff] at h
    constructor
    · intro he
      exact absurd he (by simp)
    · rintro ⟨c, hget, hfail, _⟩
      exact absurd (h c (List.getElem?_mem hget)) (by simp [hfail])

theorem new_ref_ok_iff (checks : List Check) (input : StrRef) :
    new_ref checks input = .ok ⟨input.addr, input.bytes⟩ ↔ allPass checks input.bytes := by
  unfold new_ref
  cases h : checksRun 0 checks input.bytes with
  | error e =>
    simp only []
    rw [checksRun_error_iff] at h
    obtain ⟨k, _, c, hget, hfail, _⟩ := h
    constructor
    · intro he
      exact absurd he (by simp)
    · intro hall
      exact absurd (hall c (List.getElem?_mem hget)) (by simp [hfail])
  | ok u =>
    rw [checksRun_ok_iff] at h
    simp [transpose, deref_wrapper_ptr, cast_str_ptr, ptr_from_ref, into_inner_str, h]

theorem new_ref_ok_val (checks : List Check) (input : StrRef) (r : WrapperStrRef)
    (h : new_ref checks input = .ok r) : r = ⟨input.addr, input.bytes⟩ := by
  unfold new_ref at h
  cases hc : checksRun 0 checks input.bytes with
  | error e => rw [hc] at h; exact absurd h (by simp)
  | ok u =>
    rw [hc] at h
    simp only [transpose, deref_wrapper_ptr, cast_str_ptr, ptr_from_ref, into_inner_str] at h
    exact (Except.ok.inj h).symm

theorem length_dropWhile_le (p : UInt8 → Bool) :
    ∀ l : List UInt8, (l.dropWhile p).length ≤ l.length
  | [] => Nat.le_refl _
  | a :: l => by
    rw [List.dropWhile_cons]
    split
    · exact Nat.le_trans (length_dropWhile_le p l) (Nat.le_succ _)
    · exact Nat.le_refl _

theorem length_dropWhile_eq_iff (p : UInt8 → Bool) (l : List UInt8) :
    (l.dropWhile p).length = l.length ↔ l.dropWhile p = l := by
  constructor
  · intro h
    cases l with
    | nil => simp
    | cons b t =>
      rw [List.dropWhile_cons] at h ⊢
      split at h
      · exfalso
        have := length_dropWhile_le p t
        simp at h
        omega
      · split
        · simp_all
        · rfl
  · intro h
    rw [h]

theorem dropWhile_eq_self_iff_head (p : UInt8 → Bool) (l : List UInt8) :
    l.dropWhile p = l ↔ ∀ b ∈ l.head?, p b = false := by
  cases l with
  | nil => simp
  | cons b t =>
    rw [List.dropWhile_cons]
    by_cases hb : p b
    · simp only [hb, if_true]
      constructor
      · intro h
        exfalso
        have hlen := length_dropWhile_le p t
        have : (t.dropWhile p).length = (b :: t).length := by rw [h]
        simp at this
        omega
      · intro h
        exact absurd (h b (by simp)) (by simp [hb])
    · simp [hb]

/-- From the spec's words: "the input has no leading or trailing ASCII
whitespace" (check catalog, ascii-trimmed row). -/
def spec_ascii_trimmed (s : Str) : Prop :=
  (∀ b ∈ s.head?, isAsciiWhitespace b = false) ∧
  (∀ b ∈ s.getLast?, isAsciiWhitespace b = false)

theorem trim_ascii_length_iff (s : Str) :
    (trim_ascii s).length = s.length ↔ spec_ascii_trimmed s := by
  unfold trim_ascii trim_ascii_end trim_ascii_start spec_ascii_trimmed
  constructor
  · intro h
    rw [List.length_reverse] at h
    have h1 : (s.dropWhile isAsciiWhitespace).length = s.length := by
      have ha := length_dropWhile_le isAsciiWhitespace ((s.dropWhile isAsciiWhitespace).reverse)
      have hb := length_dropWhile_le isAsciiWhitespace s
      rw [List.length_reverse] at ha
      omega
    have hs : s.dropWhile isAsciiWhitespace = s :=
      (length_dropWhile_eq_iff _ _).mp h1
    rw [hs] at h
    have h2 : s.reverse.dropWhile isAsciiWhitespace = s.reverse :=
      (length_dropWhile_eq_iff _ _).mp (by rw [h, List.length_reverse])
    refine ⟨(dropWhile_eq_self_iff_head _ _).mp hs, ?_⟩
    have := (dropWhile_eq_self_iff_head _ _).mp h2
    rwa [List.head?_reverse] at this
  · rintro ⟨hhead, hlast⟩
    have hs : s.dropWhile isAsciiWhitespace = s :=
      (dropWhile_eq_self_iff_head _ _).mpr hhead
    rw [hs]
    have h2 : s.reverse.dropWhile isAsciiWhitespace = s.reverse :=
      (dropWhile_eq_self_iff_head _ _).mpr (by rwa [List.head?_reverse])
    rw [h2, List.reverse_reverse]

theorem new_error_iff [DerefStr α] (checks : List Check) (x : α) (i : Nat) :
    new checks x = .error i ↔ isFirstFail checks (DerefStr.deref x).bytes i := by
  rw [← new_ref_error_iff checks (DerefStr.deref x) i]
  unfold new
  cases h : new_ref checks (DerefStr.deref x) with
  | ok r => simp [h]
  | error e => simp [h]

theorem new_ok_iff [DerefStr α] (checks : List Check) (x : α) :
    new checks x = .ok ⟨x⟩ ↔ allPass checks (DerefStr.deref x).bytes := by
  rw [← new_ref_ok_iff checks (DerefStr.deref x)]
  unfold new
  cases h : new_ref checks (DerefStr.deref x) with
  | ok r =>
    have := new_ref_ok_val _ _ _ h
    subst this
    simp [h]
  | error e => simp [h]

theorem new_box_error_iff (checks : List Check) (b : BoxStr) (i : Nat) :
    new_box checks b = .error i ↔ isFirstFail checks b.bytes i := by
  have h1 : new_box checks b = .error i ↔
      new_ref checks (DerefStr.deref b) = .error i := by
    unfold new_box
    cases h : new_ref checks (DerefStr.deref b) with
    | ok r => simp [h]
    | error e => simp [h]
  exact h1.trans (new_ref_error_iff checks (DerefStr.deref b) i)

theorem new_box_ok_iff (checks : List Check) (b : BoxStr) :
    new_box checks b = .ok ⟨b.addr, b.bytes⟩ ↔ allPass checks b.bytes := by
  have h1 : new_box checks b = .ok ⟨b.addr, b.bytes⟩ ↔
      new_ref checks (DerefStr.deref b) =
        .ok ⟨(DerefStr.deref b).addr, (DerefStr.deref b).bytes⟩ := by
    unfold new_box
    cases h : new_ref checks (DerefStr.deref b) with
    | ok r =>
      have hv := new_ref_ok_val _ _ _ h
      subst hv
      constructor
      · intro _; rfl
      · intro _; rfl
    | error e => simp [h]
  exact h1.trans (new_ref_ok_iff checks (DerefStr.deref b))

theorem from_str_error_iff (checks : List Check) (f : Nat) (s : StrRef) (i : Nat) :
    from_str checks f s = .error i ↔ isFirstFail checks s.bytes i :=
  new_error_iff checks (string_from f s) i

theorem from_str_ok_iff (checks : List Check) (f : Nat) (s : StrRef) :
    from_str checks f s = .ok ⟨⟨f, s.bytes⟩⟩ ↔ allPass checks s.bytes :=
  new_ok_iff checks (string_from f s)

/-- C1: validation, as run by `new_ref` (and hence by `new` and `new_box`),
reports the tag of the first check in declaration order that fails — so an
input failing both `ci` and `cj` with `i < j` is reported as `ci`, never
`cj` — and succeeds exactly when every check passes. -/
theorem new_ref_reports_first_failing_check (checks : List Check) (input : StrRef) :
    (∀ i, new_ref checks input = .error i ↔ isFirstFail checks input.bytes i) ∧
    ((∃ r, new_ref checks input = .ok r) ↔ allPass checks input.bytes) ∧
    (∀ (x : OwnedString) i, new checks x = .error i ↔ isFirstFail checks x.bytes i) ∧
    (∀ (b : BoxStr) i, new_box checks b = .error i ↔ isFirstFail checks b.bytes i) := by
  refine ⟨fun i => new_ref_error_iff checks input i, ⟨?_, ?_⟩,
    fun x i => new_error_iff checks x i, fun b i => new_box_error_iff checks b i⟩
  · rintro ⟨r, hr⟩
    have hv := new_ref_ok_val checks input r hr
    subst hv
    exact (new_ref_ok_iff checks input).mp hr
  · intro h
    exact ⟨_, (new_ref_ok_iff checks input).mpr h⟩

/-- Witness for C1 at a concrete input failing the second check. -/
theorem new_ref_reports_first_failing_check_witness :
    isFirstFail [Check.non_empty, Check.min_len 3] [0x61] 1 :=
  ((new_ref_reports_first_failing_check [Check.non_empty, Check.min_len 3]
    ⟨7, [0x61]⟩).1 1).mp rfl

/-- C5: each check kind is the pure byte-level predicate of the catalog:
non-empty ⟺ byte length > 0; ascii-trimmed ⟺ no leading or trailing ASCII
whitespace; min-length(l) ⟺ byte length ≥ l; max-length(l) ⟺ byte
length ≤ l; exact-length(l) ⟺ byte length = l. -/
theorem check_catalog_semantics :
    (∀ s : Str, checkPasses .non_empty s = true ↔ 0 < s.length) ∧
    (∀ s : Str, checkPasses .ascii_trimmed s = true ↔ spec_ascii_trimmed s) ∧
    (∀ (l : Nat) (s : Str), checkPasses (.min_len l) s = true ↔ l ≤ s.length) ∧
    (∀ (l : Nat) (s : Str), checkPasses (.max_len l) s = true ↔ s.length ≤ l) ∧
    (∀ (l : Nat) (s : Str), checkPasses (.len l) s = true ↔ s.length = l) := by
  refine ⟨?_, ?_, ?_, ?_, ?_⟩
  · intro s
    cases s <;> simp [checkPasses]
  · intro s
    simp only [checkPasses, beq_iff_eq]
    exact trim_ascii_length_iff s
  · intro l s
    simp [checkPasses, Nat.not_lt]
  · intro l s
    simp [checkPasses, Nat.not_lt]
  · intro l s
    simp [checkPasses]

/-- Witness for C5 at a concrete input. -/
theorem check_catalog_semantics_witness :
    spec_ascii_trimmed [0x61] ∧ 3 ≤ ([0x61, 0x62, 0x63] : Str).length :=
  ⟨(check_catalog_semantics.2.1 [0x61]).mp rfl,
   (check_catalog_semantics.2.2.1 3 [0x61, 0x62, 0x63]).mp rfl⟩

/-- C8: for a no-checks specification, `new` is infallible (it returns the
wrapper directly, with no error channel) and stores its input unchanged, for
every input including the empty string; `from_str` has the uninhabited
`Infallible` error type and always succeeds with the copied bytes. -/
theorem unchecked_new_is_identity :
    (∀ (α : Type) (inst : DerefStr α) (x : α), (@Unchecked.new α inst x).inner = x) ∧
    (∀ (f : Nat) (s : StrRef), Unchecked.from_str f s = .ok ⟨⟨f, s.bytes⟩⟩) ∧
    ((Unchecked.new (⟨0, []⟩ : OwnedString)).inner = (⟨0, []⟩ : OwnedString)) := by
  exact ⟨fun _ _ _ => rfl, fun _ _ => rfl, rfl⟩

/-- Witness for C8 at a concrete input. -/
theorem unchecked_new_is_identity_witness :
    Unchecked.from_str 4 ⟨0, [0x21]⟩ = .ok ⟨⟨4, [0x21]⟩⟩ :=
  unchecked_new_is_identity.2.1 4 ⟨0, [0x21]⟩

theorem new_ok_val [DerefStr α] (checks : List Check) (x : α) (w : Wrapper α)
    (h : new checks x = .ok w) :
    w = ⟨x⟩ ∧ allPass checks (DerefStr.deref x).bytes := by
  unfold new at h
  cases hr : new_ref checks (DerefStr.deref x) with
  | error e => rw [hr] at h; exact absurd h (by simp)
  | ok r =>
    rw [hr] at h
    refine ⟨(Except.ok.inj h).symm, ?_⟩
    have hv := new_ref_ok_val _ _ _ hr
    subst hv
    exact (new_ref_ok_iff _ _).mp hr

theorem new_box_ok_val (checks : List Check) (b : BoxStr) (w : WrapperStrBox)
    (h : new_box checks b = .ok w) :
    w = ⟨b.addr, b.bytes⟩ ∧ allPass checks b.bytes := by
  unfold new_box at h
  cases hr : new_ref checks (DerefStr.deref b) with
  | error e => rw [hr] at h; exact absurd h (by simp)
  | ok r =>
    rw [hr] at h
    refine ⟨(Except.ok.inj h).symm, ?_⟩
    have hv := new_ref_ok_val _ _ _ hr
    subst hv
    exact (new_ref_ok_iff _ _).mp hr

/-- C2: on an already-validated wrapper, the representation cast
(`transpose`, in both the `Wrapper<&str> → &Wrapper<str>` and the
`Wrapper<Box<str>> → Box<Wrapper<str>>` form) yields a handle at the same
address holding the same bytes of the same length — the text is not copied
and no validation check is re-run; the cast is a total function with no
failure case. -/
theorem transpose_preserves_bytes_and_address (checks : List Check)
    (w : Wrapper StrRef) (_hw : allPass checks w.inner.bytes)
    (b : Wrapper BoxStr) (_hb : allPass checks b.inner.bytes) :
    (transpose w).addr = w.inner.addr ∧
    (transpose w).bytes = w.inner.bytes ∧
    (transpose w).bytes.length = w.inner.bytes.length ∧
    (transpose_box b).addr = b.inner.addr ∧
    (transpose_box b).bytes = b.inner.bytes ∧
    (transpose_box b).bytes.length = b.inner.bytes.length :=
  ⟨rfl, rfl, rfl, rfl, rfl, rfl⟩

/-- Witness for C2 at a concrete validated wrapper. -/
theorem transpose_preserves_witness :
    (transpose ⟨⟨3, [0x61]⟩⟩).addr = 3 ∧ (transpose ⟨⟨3, [0x61]⟩⟩).bytes = [0x61] ∧
    (transpose_box ⟨⟨5, [0x62]⟩⟩).addr = 5 := by
  have h := transpose_preserves_bytes_and_address [Check.non_empty]
    ⟨⟨3, [0x61]⟩⟩ (by decide) ⟨⟨5, [0x62]⟩⟩ (by decide)
  exact ⟨h.1, h.2.1, h.2.2.2.1⟩

/-- C3: the representation cast has an exact structural inverse in both
storage kinds: converting a validated wrapper to the reference-to-wrapper
(box-of-wrapper) form and back yields the original handle — same bytes,
same length, same address/owner. -/
theorem transpose_untranspose_roundtrip (checks : List Check)
    (w : Wrapper StrRef) (_hw : allPass checks w.inner.bytes)
    (b : Wrapper BoxStr) (_hb : allPass checks b.inner.bytes) :
    untranspose (transpose w) = w ∧ untranspose_box (transpose_box b) = b :=
  ⟨rfl, rfl⟩

/-- Witness for C3 at a concrete validated wrapper. -/
theorem transpose_untranspose_witness :
    untranspose (transpose ⟨⟨3, [0x61]⟩⟩) = ⟨⟨3, [0x61]⟩⟩ ∧
    untranspose_box (transpose_box ⟨⟨5, [0x62]⟩⟩) = ⟨⟨5, [0x62]⟩⟩ :=
  transpose_untranspose_roundtrip [Check.non_empty]
    ⟨⟨3, [0x61]⟩⟩ (by decide) ⟨⟨5, [0x62]⟩⟩ (by decide)

/-- C4: for a specification with at least one check, every wrapper obtained
through the public constructors (`new`, `new_ref`, `new_box`, `from_str`)
has content satisfying all checks: re-running validation on its text slice
always succeeds. -/
theorem constructors_establish_invariant (checks : List Check) (_hne : checks ≠ []) :
    (∀ (input : StrRef) r, new_ref checks input = .ok r → allPass checks r.bytes) ∧
    (∀ (x : OwnedString) w, new checks x = .ok w → allPass checks w.inner.bytes) ∧
    (∀ (b : BoxStr) w, new_box checks b = .ok w → allPass checks w.bytes) ∧
    (∀ (f : Nat) (s : StrRef) w, from_str checks f s = .ok w →
      allPass checks w.inner.bytes) := by
  refine ⟨?_, ?_, ?_, ?_⟩
  · intro input r h
    have hv := new_ref_ok_val _ _ _ h
    subst hv
    exact (new_ref_ok_iff _ _).mp h
  · intro x w h
    obtain ⟨hw, hp⟩ := new_ok_val _ _ _ h
    subst hw
    exact hp
  · intro b w h
    obtain ⟨hw, hp⟩ := new_box_ok_val _ _ _ h
    subst hw
    exact hp
  · intro f s w h
    obtain ⟨hw, hp⟩ := new_ok_val _ _ _ h
    subst hw
    exact hp

/-- Witness for C4: re-validating the content of a concretely constructed
wrapper succeeds. -/
theorem constructors_establish_invariant_witness :
    allPass [Check.non_empty] [0x61] :=
  (constructors_establish_invariant [Check.non_empty]
    (List.cons_ne_nil _ _)).1 ⟨0, [0x61]⟩ ⟨0, [0x61]⟩ rfl

/-- C6: round-trip identity: for an input text that passes validation,
parsing (`from_str` or `new`) and then borrowing as a text slice (`as_str`)
yields exactly the input bytes. -/
theorem parse_as_str_roundtrip (checks : List Check) (f : Nat) (s : StrRef)
    (hs : allPass checks s.bytes) (x : OwnedString) (hx : allPass checks x.bytes) :
    (∃ w, from_str checks f s = .ok w ∧ (as_str w).bytes = s.bytes) ∧
    (∃ w, new checks x = .ok w ∧ (as_str w).bytes = x.bytes) :=
  ⟨⟨⟨⟨f, s.bytes⟩⟩, (from_str_ok_iff checks f s).mpr hs, rfl⟩,
   ⟨⟨x⟩, (new_ok_iff checks x).mpr hx, rfl⟩⟩

/-- Witness for C6 at a concrete passing input. -/
theorem parse_as_str_roundtrip_witness :
    ∃ w, from_str [Check.non_empty] 9 ⟨0, [0x61]⟩ = .ok w ∧
      (as_str w).bytes = [0x61] :=
  (parse_as_str_roundtrip [Check.non_empty] 9 ⟨0, [0x61]⟩ (by decide)
    ⟨0, [0x61]⟩ (by decide)).1

/-- Counterexample to C7 as stated: calling `new` on the owned empty string
(heap allocation 7) fails the non-empty check, and after the call the caller
no longer holds the offending text — allocation 7 has been freed, because
`new` takes its input by value and the `Err` path drops it.  The claim's
"after `new` returns an error, the caller still holds the offending input
text" is therefore false for owned inputs. -/
theorem new_consumes_owned_input_on_error :
    (new_with_heap [Check.non_empty] [7] ⟨7, []⟩).2 = .error 0 ∧
    (new_with_heap [Check.non_empty] [7] ⟨7, []⟩).1 = [] ∧
    7 ∉ (new_with_heap [Check.non_empty] [7] ⟨7, []⟩).1 :=
  ⟨rfl, rfl, by decide⟩

/-- C7 amended: when validation fails, the error value carries nothing
beyond the identity of the first failed check — it is exactly the in-bounds
tag (index) of the first failing check and coincides for any input with the
same text; and validation itself only borrows: `new_ref` takes the slice by
shared reference, so its caller still holds the offending input unchanged,
whereas `new` and `new_box` take their owned input by value and free its
allocation on the error path (the caller keeps the text only if it kept its
own copy). -/
theorem error_tag_only_and_borrowed_input_retained (checks : List Check)
    (x : OwnedString) (i : Nat) (h : new checks x = .error i) :
    isFirstFail checks x.bytes i ∧ i < checks.length ∧
    (∀ y : OwnedString, y.bytes = x.bytes → new checks y = .error i) ∧
    (∀ input : StrRef, input.bytes = x.bytes → new_ref checks input = .error i) ∧
    (∀ (live : List Nat) (input : StrRef),
      (new_ref_with_heap checks live input).1 = live) ∧
    (∀ live : List Nat, (new_with_heap checks live x).1 = live.erase x.addr) ∧
    (∀ (live : List Nat) (b : BoxStr), b.bytes = x.bytes →
      (new_box_with_heap checks live b).1 = live.erase b.addr) := by
  have hff : isFirstFail checks x.bytes i := (new_error_iff checks x i).mp h
  refine ⟨hff, ?_, ?_, ?_, fun _ _ => rfl, ?_, ?_⟩
  · obtain ⟨c, hget, _, _⟩ := hff
    rw [List.getElem?_eq_some] at hget
    exact hget.1
  · intro y hy
    exact (new_error_iff checks y i).mpr
      (by rw [show (DerefStr.deref y : StrRef).bytes = y.bytes from rfl, hy]; exact hff)
  · intro input hin
    exact (new_ref_error_iff checks input i).mpr (by rw [hin]; exact hff)
  · intro live
    unfold new_with_heap
    rw [h]
  · intro live b hb
    have hbe : new_box checks b = .error i :=
      (new_box_error_iff checks b i).mpr (by rw [hb]; exact hff)
    unfold new_box_with_heap
    rw [hbe]

/-- Witness for the amended C7 at a concrete failing input. -/
theorem error_tag_only_witness :
    isFirstFail [Check.non_empty] [] 0 ∧
    (new_with_heap [Check.non_empty] [3, 7] ⟨7, []⟩).1 = [3] :=
  have h := error_tag_only_and_borrowed_input_retained [Check.non_empty] ⟨7, []⟩ 0 rfl
  ⟨h.1, h.2.2.2.2.2.1 [3, 7]⟩

/-- C9: for a checked specification, the four public construction paths
agree on every input text: `new` on the owned string, `new_ref` on the
slice, `new_box` on the boxed copy, and `from_str` either all succeed with
content equal to the input, or all fail with the same first-failing-check
tag. -/
theorem construction_paths_agree (checks : List Check) (_hne : checks ≠ [])
    (s : Str) (a b c d f : Nat) :
    (allPass checks s →
      new_ref checks ⟨a, s⟩ = .ok ⟨a, s⟩ ∧
      new checks (⟨b, s⟩ : OwnedString) = .ok ⟨⟨b, s⟩⟩ ∧
      new_box checks (⟨c, s⟩ : BoxStr) = .ok ⟨c, s⟩ ∧
      from_str checks f ⟨d, s⟩ = .ok ⟨⟨f, s⟩⟩) ∧
    (¬allPass checks s →
      ∃ i, isFirstFail checks s i ∧
        new_ref checks ⟨a, s⟩ = .error i ∧
        new checks (⟨b, s⟩ : OwnedString) = .error i ∧
        new_box checks (⟨c, s⟩ : BoxStr) = .error i ∧
        from_str checks f ⟨d, s⟩ = .error i) := by
  constructor
  · intro h
    exact ⟨(new_ref_ok_iff checks ⟨a, s⟩).mpr h, (new_ok_iff checks _).mpr h,
      (new_box_ok_iff checks ⟨c, s⟩).mpr h, (from_str_ok_iff checks f ⟨d, s⟩).mpr h⟩
  · intro h
    cases hr : checksRun 0 checks s with
    | ok u =>
      cases u
      exact absurd ((checksRun_ok_iff 0 checks s).mp hr) h
    | error e =>
      obtain ⟨i, _hei, hff⟩ := (checksRun_error_iff 0 checks s e).mp hr
      exact ⟨i, hff, (new_ref_error_iff checks ⟨a, s⟩ i).mpr hff,
        (new_error_iff checks _ i).mpr hff,
        (new_box_error_iff checks ⟨c, s⟩ i).mpr hff,
        (from_str_error_iff checks f ⟨d, s⟩ i).mpr hff⟩

/-- Witness for C9 at concrete passing and failing inputs. -/
theorem construction_paths_agree_witness :
    new_ref [Check.non_empty] ⟨1, [0x61]⟩ = .ok ⟨1, [0x61]⟩ ∧
    new [Check.non_empty] (⟨2, [0x61]⟩ : OwnedString) = .ok ⟨⟨2, [0x61]⟩⟩ :=
  have h := (construction_paths_agree [Check.non_empty] (List.cons_ne_nil _ _)
    [0x61] 1 2 3 4 5).1 (by decide)
  ⟨h.1, h.2.1⟩

instance : Hashable Unit := ⟨fun _ => 0⟩

/-- Collapsed error type of `declare_new_string`: the unit struct
`$err_name(())` with derived equality, ordering and hashing. -/
structure CollapsedError where
  inner : Unit
deriving DecidableEq, Hashable, Ord

/-- `$struct_name(String)` of `declare_new_string` (owned content). -/
structure NewString where
  inner : Str
deriving DecidableEq

/-- The bytes of `"Invalid "`, the head of the message built by
`concat!("Invalid ", stringify!($struct_name))`. -/
def invalidMsgHead : Str := [0x49, 0x6E, 0x76, 0x61, 0x6C, 0x69, 0x64, 0x20]

/-- `Display for $err_name`: the message derived from the wrapper's name. -/
def collapsed_error_display (structName : Str) : Str := invalidMsgHead ++ structName

/-- `str::to_string`: copy the slice's bytes into an owned string. -/
def to_string (s : Str) : Str := s

/-- `FromStr::from_str` of `declare_new_string`: test the single shared
pattern; on a match keep a copy of the input, otherwise return the opaque
marker error. -/
def collapsed_from_str (is_match : Str → Bool) (s : Str) :
    Except CollapsedError NewString :=
  if is_match s then .ok ⟨to_string s⟩ else .error ⟨()⟩

/-- C10: in the collapsed-errors style, parsing succeeds with stored content
equal to the input exactly when the shared pattern matches; otherwise the
single opaque "invalid" marker error is returned, whose displayed message is
"Invalid " followed by the wrapper's name; the error type supports decidable
equality, ordering and stable hashing (and all its values are identical). -/
theorem collapsed_parse_behaviour (is_match : Str → Bool) (s : Str) :
    (collapsed_from_str is_match s = .ok ⟨s⟩ ↔ is_match s = true) ∧
    (is_match s = false → collapsed_from_str is_match s = .error ⟨()⟩) ∧
    (∀ name : Str, collapsed_error_display name = invalidMsgHead ++ name) ∧
    (∀ e₁ e₂ : CollapsedError,
      e₁ = e₂ ∧ compare e₁ e₂ = Ordering.eq ∧ hash e₁ = hash e₂) := by
  refine ⟨?_, ?_, fun _ => rfl, ?_⟩
  · by_cases h : is_match s
    · simp [collapsed_from_str, to_string, h]
    · simp [collapsed_from_str, to_string, h]
  · intro h
    simp [collapsed_from_str, h]
  · rintro ⟨⟨⟩⟩ ⟨⟨⟩⟩
    exact ⟨rfl, rfl, rfl⟩

/-- Witness for C10 at a concrete pattern and inputs. -/
theorem collapsed_parse_behaviour_witness :
    collapsed_from_str (fun t => t.length == 2) [0x61, 0x62] = .ok ⟨[0x61, 0x62]⟩ ∧
    collapsed_from_str (fun t => t.length == 2) [0x61] = .error ⟨()⟩ :=
  ⟨(collapsed_parse_behaviour (fun t => t.length == 2) [0x61, 0x62]).1.mpr (by decide),
   (collapsed_parse_behaviour (fun t => t.length == 2) [0x61]).2.1 (by decide)⟩

end Nype
